import Mathlib

/-!
Verification of the differential perft validator of the heimdall repository
(`src/tests/compare_positions.py` and `src/tests/suite.py`).

The embedding models:
  * Python `dict` objects as association lists with CPython semantics
    (updating a present key keeps its position, a new key is appended);
  * the move-count regex `([a-h][1-8])([a-h][1-8])(b|n|q|r)?:\s([0-9]+)`
    scanned with `re.findall` (leftmost, non-overlapping matches);
  * the construction of `positions["all"]`, `positions["stockfish"]` and
    `positions["heimdall"]` (compare_positions.py lines 63-79);
  * the classification loop into `missing["heimdall"]`,
    `missing["stockfish"]` and the sorted `mistakes` (lines 81-98);
  * the six-line breakdown regex (lines 112-121);
  * `main`'s exit codes 0/1/2/3 over an abstract environment recording
    executable resolution, process exit statuses and raw outputs;
  * `suite.py`'s sequential loop (strip + right-padding of each line,
    tallying into `successful`/`failed`) and its `None` return value.

`\s` is modelled as the six ASCII whitespace characters Python matches on
ASCII text (the engine outputs under comparison are ASCII).
-/

namespace Heimdall

/-! ## Python dictionaries as association lists -/

/-- `d[k] = v` on a CPython dict: an existing key keeps its position and
gets the new value, a missing key is appended at the end. -/
def dinsert (k : String) (v : α) : List (String × α) → List (String × α)
  | [] => [(k, v)]
  | e :: es => if e.1 = k then (k, v) :: es else e :: dinsert k v es

/-- `d.get(k)`: the value stored at key `k`, if present. -/
def dlookup (k : String) : List (String × α) → Option α
  | [] => none
  | e :: es => if e.1 = k then some e.2 else dlookup k es

/-! ## The move-count parser (compare_positions.py line 68) -/

/-- `[a-h]`. -/
def isFileC (c : Char) : Bool := decide ('a' ≤ c ∧ c ≤ 'h')

/-- `[1-8]`. -/
def isRankC (c : Char) : Bool := decide ('1' ≤ c ∧ c ≤ '8')

/-- `(b|n|q|r)`. -/
def isPromoC (c : Char) : Bool := c == 'b' || c == 'n' || c == 'q' || c == 'r'

/-- `\s` on ASCII text. -/
def pyIsSpace (c : Char) : Bool :=
  c == ' ' || c == '\t' || c == '\n' || c == '\r' || c == '\x0b' || c == '\x0c'

/-- `int(...)` of a non-empty run of decimal digits. -/
def digitsVal (ds : List Char) : Nat :=
  ds.foldl (fun a c => 10 * a + (c.toNat - '0'.toNat)) 0

/-- The `:\s([0-9]+)` part of the move pattern: a colon, one whitespace
character, then a maximal non-empty run of digits (the greedy `[0-9]+`). -/
def matchTail : List Char → Option (Nat × List Char)
  | ':' :: w :: rest =>
    if pyIsSpace w then
      let ds := rest.takeWhile Char.isDigit
      if ds.isEmpty then none
      else some (digitsVal ds, rest.drop ds.length)
    else none
  | _ => none

/-- One attempted match of the move pattern at the head of the text.
The optional promotion group is greedy; when taking it fails the regex
engine retries without it, but the retry always fails too because the
next pattern character is `:` and the promotion letter is not `:`, so no
explicit backtracking is needed.  Returns the concatenated move token
(promotion letter appended when present), the node count, and the text
after the match. -/
def matchMove : List Char → Option (String × Nat × List Char)
  | a :: r1 :: b :: r2 :: rest =>
    if isFileC a && isRankC r1 && isFileC b && isRankC r2 then
      match rest with
      | p :: rest2 =>
        if isPromoC p then
          match matchTail rest2 with
          | some (n, rem) => some (⟨[a, r1, b, r2, p]⟩, n, rem)
          | none => none
        else
          match matchTail (p :: rest2) with
          | some (n, rem) => some (⟨[a, r1, b, r2]⟩, n, rem)
          | none => none
      | [] => none
    else none
  | _ => none

/-- `re.findall` driver: try a match at each position, consume matched text
(non-overlapping), advance one character on failure.  The fuel starts at
the text length; a match consumes at least five characters and a failure
consumes one, so the fuel never runs out before the text does. -/
def findAllAux : Nat → List Char → List (String × Nat)
  | 0, _ => []
  | _ + 1, [] => []
  | fuel + 1, c :: cs =>
    match matchMove (c :: cs) with
    | some (m, n, rest) => (m, n) :: findAllAux fuel rest
    | none => findAllAux fuel cs

/-- All non-overlapping matches of the move-count pattern, in text order. -/
def findAll (s : List Char) : List (String × Nat) := findAllAux s.length s

/-! ## Building the per-engine mappings (lines 69-79) -/

/-- The loop `for ... in pattern.findall(output): d[move] = int(nodes)`
building `positions["stockfish"]` (and, for the candidate's output,
`positions["heimdall"]`). -/
def buildMap : List (String × Nat) → List (String × Nat) → List (String × Nat)
  | [], d => d
  | p :: ps, d => buildMap ps (dinsert p.1 p.2 d)

/-- An engine's move→nodes mapping parsed from its raw output. -/
def moveCounts (text : List Char) : List (String × Nat) := buildMap (findAll text) []

/-- The reference half of `positions["all"]`: each stockfish match stores
the singleton `[int(nodes)]`, overwriting any earlier value (line 71). -/
def buildAllRef : List (String × Nat) → List (String × List Nat) → List (String × List Nat)
  | [], d => d
  | p :: ps, d => buildAllRef ps (dinsert p.1 [p.2] d)

/-- The candidate half of `positions["all"]`: each heimdall match appends
`int(nodes)` to an existing entry or starts a new singleton (lines 75-78). -/
def buildAllCand : List (String × Nat) → List (String × List Nat) → List (String × List Nat)
  | [], d => d
  | p :: ps, d =>
    buildAllCand ps
      (match dlookup p.1 d with
       | some l => dinsert p.1 (l ++ [p.2]) d
       | none => dinsert p.1 [p.2] d)

/-- `positions["all"]` after both parsing loops. -/
def allPositions (sfMs hmMs : List (String × Nat)) : List (String × List Nat) :=
  buildAllCand hmMs (buildAllRef sfMs [])

/-! ## The classification loop (lines 81-98) -/

structure Report where
  /-- `missing["heimdall"]`: moves in heimdall's mapping but not stockfish's
  ("illegal moves generated"). -/
  missingHeimdall : List String
  /-- `missing["stockfish"]`: moves in stockfish's mapping but not heimdall's
  ("legal moves missed"). -/
  missingStockfish : List String
  /-- `mistakes`, sorted: moves flagged by `nodes[0] != nodes[1]`. -/
  mistakes : List String
deriving DecidableEq, Repr

/-- One iteration of the classification loop over `positions["all"].items()`.
Membership tests are on the per-engine dicts; the count comparison is
`nodes[0] != nodes[1]` on the entry of `positions["all"]` (indices 0 and 1
are in range whenever this branch is reached in the source, because the
move is then present in both mappings). -/
def classifyStep (sf hm : List (String × Nat)) (r : Report) (e : String × List Nat) : Report :=
  match dlookup e.1 sf with
  | none => { r with missingHeimdall := r.missingHeimdall ++ [e.1] }
  | some _ =>
    match dlookup e.1 hm with
    | none => { r with missingStockfish := r.missingStockfish ++ [e.1] }
    | some _ =>
      if e.2[0]? ≠ e.2[1]? then { r with mistakes := r.mistakes ++ [e.1] } else r

/-- The classification loop. -/
def classifyAll (sf hm : List (String × Nat)) :
    List (String × List Nat) → Report → Report
  | [], r => r
  | e :: es, r => classifyAll sf hm es (classifyStep sf hm r e)

/-- `sorted(list(mistakes))`: ascending lexical order on the move tokens. -/
def sortMoves (l : List String) : List String :=
  l.insertionSort (fun a b => a ≤ b)

/-- The full comparison of two parsed match streams, as the source performs
it: build the three dicts, classify every key of `positions["all"]`,
sort the mistakes. -/
def reportOfMs (sfMs hmMs : List (String × Nat)) : Report :=
  let sf := buildMap sfMs []
  let hm := buildMap hmMs []
  let r := classifyAll sf hm (allPositions sfMs hmMs) ⟨[], [], []⟩
  { r with mistakes := sortMoves r.mistakes }

/-- The comparison applied to the two engines' raw outputs. -/
def reportOf (sfText hmText : List Char) : Report :=
  reportOfMs (findAll sfText) (findAll hmText)

/-- `missing["stockfish"] or missing["heimdall"] or mistakes` all falsy
(line 123): the clean / "No discrepancies detected" case. -/
def cleanReport (r : Report) : Bool :=
  r.missingStockfish.isEmpty && r.missingHeimdall.isEmpty && r.mistakes.isEmpty

/-- `sum(d[move] for move in d)` (lines 99-100). -/
def totalOf (d : List (String × Nat)) : Nat := (d.map Prod.snd).sum

/-! ## The breakdown parser (lines 112-121) -/

structure Breakdown where
  captures : Nat
  checks : Nat
  enPassant : Nat
  checkmates : Nat
  castles : Nat
  promotions : Nat
deriving DecidableEq, Repr

/-- Consume an exact character sequence. -/
def stripLit : List Char → List Char → Option (List Char)
  | [], s => some s
  | _ :: _, [] => none
  | c :: cs, x :: xs => if x = c then stripLit cs xs else none

/-- A maximal non-empty digit run (`[0-9]+`). -/
def takeNum (s : List Char) : Option (Nat × List Char) :=
  let ds := s.takeWhile Char.isDigit
  if ds.isEmpty then none else some (digitsVal ds, s.drop ds.length)

/-- One breakdown line `\s\s-\s<label>\s([0-9]+)`, where `label` carries
its trailing colon (e.g. `"Captures:"`). -/
def matchBLine (label : String) (s : List Char) : Option (Nat × List Char) :=
  match s with
  | w1 :: w2 :: '-' :: w3 :: rest =>
    if pyIsSpace w1 && pyIsSpace w2 && pyIsSpace w3 then
      match stripLit label.data rest with
      | some rest2 =>
        match rest2 with
        | w :: rest3 => if pyIsSpace w then takeNum rest3 else none
        | [] => none
      | none => none
    else none
  | _ => none

/-- A literal newline between the six lines of the block. -/
def expectNl : List Char → Option (List Char)
  | '\n' :: r => some r
  | _ => none

/-- One attempted match of the whole six-line breakdown block at the head
of the text: all six labelled lines, contiguous, in the fixed order of the
source's regex; any missing or reordered line fails the whole block. -/
def matchBreakdownAt (s : List Char) : Option Breakdown := do
  let (c1, s) ← matchBLine "Captures:" s
  let s ← expectNl s
  let (c2, s) ← matchBLine "Checks:" s
  let s ← expectNl s
  let (c3, s) ← matchBLine "E.P:" s
  let s ← expectNl s
  let (c4, s) ← matchBLine "Checkmates:" s
  let s ← expectNl s
  let (c5, s) ← matchBLine "Castles:" s
  let s ← expectNl s
  let (c6, _) ← matchBLine "Promotions:" s
  pure ⟨c1, c2, c3, c4, c5, c6⟩

/-- `pattern.search(heimdall_output)`: the first position where the block
matches, or `none`. -/
def searchBreakdownAux : Nat → List Char → Option Breakdown
  | 0, _ => none
  | _ + 1, [] => none
  | fuel + 1, c :: cs =>
    match matchBreakdownAt (c :: cs) with
    | some b => some b
    | none => searchBreakdownAux fuel cs

def searchBreakdown (s : List Char) : Option Breakdown :=
  searchBreakdownAux s.length s

/-! ## `compare_positions.main` over an abstract environment -/

/-- What the outside world supplies to one run of `compare_positions.main`:
whether each executable could be located and resolved (lines 16-25),
each engine process's exit status and collected text output, and the
`--bulk` flag. -/
structure Env where
  stockfishFound : Bool
  heimdallFound : Bool
  stockfishExit : Int
  heimdallExit : Int
  stockfishOutput : List Char
  heimdallOutput : List Char
  bulk : Bool
deriving DecidableEq, Repr

structure RunResult where
  exitCode : Nat
  /-- The discrepancy report, when the run got past the launch and crash
  gates. -/
  report : Option Report
  /-- `extra`: the parsed move-type breakdown, when one was found. -/
  breakdown : Option Breakdown
deriving DecidableEq, Repr

/-- `compare_positions.main`: return 2 if either executable cannot be
resolved (stockfish checked first), 3 if either engine process exited
non-zero after the commands were sent, otherwise build the report from
both outputs, attempt the breakdown parse on the candidate's output when
not in bulk mode (lines 119-121), and return 1 on any discrepancy, 0 on a
clean report (lines 123-157). -/
def mainRun (e : Env) : RunResult :=
  if !e.stockfishFound then ⟨2, none, none⟩
  else if !e.heimdallFound then ⟨2, none, none⟩
  else if ¬(e.stockfishExit = 0 ∧ e.heimdallExit = 0) then ⟨3, none, none⟩
  else
    let r := reportOf e.stockfishOutput e.heimdallOutput
    let bd := if e.bulk then none else searchBreakdown e.heimdallOutput
    ⟨if cleanReport r then 0 else 1, some r, bd⟩

/-- The process exit code of a single-position run. -/
def mainExit (e : Env) : Nat := (mainRun e).exitCode

/-! ## `suite.main` (suite.py) -/

/-- Python `str.strip(" ")`: remove leading and trailing space characters
(spaces only, not other whitespace). -/
def stripSpaces (s : String) : String :=
  ⟨((s.data.dropWhile (· == ' ')).reverse.dropWhile (· == ' ')).reverse⟩

/-- `longest_fen = max(sorted([len(fen) for fen in positions]))` (line 17)
for a non-empty list; on an empty list the Python raises `ValueError`,
which `suiteMainSeq`/`suiteMainPar` model separately. -/
def longestLen (lines : List String) : Nat :=
  (lines.map String.length).foldl Nat.max 0

/-- `fen += " " * (longest_fen - len(fen))` (line 26). -/
def padTo (n : Nat) (s : String) : String :=
  s ++ ⟨List.replicate (n - s.length) ' '⟩

/-- The `args.fen` value the sequential loop passes to the validator for
each line: the line stripped of surrounding spaces and then right-padded
with spaces back to the longest raw line length (lines 25-28). -/
def seqFens (lines : List String) : List String :=
  lines.map (fun l => padTo (longestLen lines) (stripSpaces l))

/-- The `args.fen` value the parallel loop passes for each line: just the
stripped line (line 45). -/
def parFens (lines : List String) : List String := lines.map stripSpaces

/-- The position command `compare_positions.main` sends to both engines
(lines 46-51): `position fen <args.fen>` when `args.fen` is truthy
(non-empty), else `position startpos`. -/
inductive PosCommand where
  | startpos
  | fen (s : String)
deriving DecidableEq, Repr

def positionCommand (fen : String) : PosCommand :=
  if fen = "" then .startpos else .fen fen

/-- The sequential tally loop (lines 24-33): each position's validator
exit code sends its (padded) fen to `successful` or to `failed`. -/
def runSeqAux (envOf : String → Env) :
    List String → List String × List String → List String × List String
  | [], acc => acc
  | fen :: rest, acc =>
    runSeqAux envOf rest
      (if mainExit (envOf fen) == 0 then (acc.1 ++ [fen], acc.2)
       else (acc.1, acc.2 ++ [fen]))

/-- The sequential suite over a positions file's lines; `envOf` abstracts
the outside world each single-position run sees. -/
def runSeq (envOf : String → Env) (lines : List String) :
    List String × List String :=
  runSeqAux envOf (seqFens lines) ([], [])

/-- What a run of `suite.main` comes to: an uncaught exception, or a normal
return carrying the two tallies and the function's return value. -/
inductive SuiteOutcome where
  | raised
  | returned (successful failed : List String) (ret : Option Nat)
deriving DecidableEq, Repr

/-- `suite.main` in sequential mode: with no lines, line 17's
`max(sorted([]))` raises `ValueError`; otherwise the loop runs and the
function falls off its end, returning `None`. -/
def suiteMainSeq (envOf : String → Env) (lines : List String) : SuiteOutcome :=
  if lines.isEmpty then .raised
  else .returned (runSeq envOf lines).1 (runSeq envOf lines).2 none

/-- `suite.main` in parallel mode, with `completed` the stripped fens in
the non-deterministic order `as_completed` yields them (a permutation of
`parFens lines` in a real run): each completed future's exit code sends
its fen to one tally, and the function returns `None` (lines 34-68). -/
def suiteMainPar (envOf : String → Env) (lines : List String)
    (completed : List String) : SuiteOutcome :=
  if lines.isEmpty then .raised
  else
    .returned (completed.filter (fun fen => mainExit (envOf fen) == 0))
      (completed.filter (fun fen => !(mainExit (envOf fen) == 0))) none

/-- The process exit status of `sys.exit(main(parser.parse_args()))`
(suite.py lines 83-86): `sys.exit(None)` exits 0; an uncaught exception
makes the interpreter exit 1. -/
def suiteExitStatus (o : SuiteOutcome) : Nat :=
  match o with
  | .raised => 1
  | .returned _ _ none => 0
  | .returned _ _ (some n) => n

/-! ## Specification-side views of the match stream

These definitions restate parts of the spec's wording (last match wins,
values of a key in match order) in order to compare them with the
dictionaries the source builds. -/

/-- The node counts attached to key `k` among the matches, in text order. -/
def vals (k : String) (ms : List (String × Nat)) : List Nat :=
  (ms.filter (fun p => p.1 == k)).map Prod.snd

/-- The count of the last match whose key is `k`, if any. -/
def lastVal (k : String) (ms : List (String × Nat)) : Option Nat :=
  (vals k ms).getLast?

/-- The list `positions["all"]` stores at key `k`: the reference's last
count (if the key occurs in the reference matches) followed by every
candidate count for the key in text order. -/
def allValue (sfMs hmMs : List (String × Nat)) (k : String) : List Nat :=
  (lastVal k sfMs).toList ++ vals k hmMs

/-- The classification branch taken for an entry of `positions["all"]`:
`move not in positions["stockfish"]`. -/
def condMH (sf : List (String × Nat)) (e : String × List Nat) : Bool :=
  (dlookup e.1 sf).isNone

/-- `move in positions["stockfish"]` but `move not in positions["heimdall"]`. -/
def condMS (sf hm : List (String × Nat)) (e : String × List Nat) : Bool :=
  (dlookup e.1 sf).isSome && (dlookup e.1 hm).isNone

/-- Present in both mappings and `nodes[0] != nodes[1]`. -/
def condMK (sf hm : List (String × Nat)) (e : String × List Nat) : Bool :=
  (dlookup e.1 sf).isSome && (dlookup e.1 hm).isSome && !(e.2[0]? == e.2[1]?)

/-- A looked-up count as a signed integer (0 when the key is absent). -/
def lookVal (d : List (String × Nat)) (m : String) : Int :=
  ((dlookup m d).getD 0 : Nat)

/-! ## Concrete runs used by the counterexamples and witnesses -/

/-- A run in which the stockfish executable cannot be resolved. -/
def envLaunchFail : Env := ⟨false, false, 0, 0, [], [], false⟩

/-- A healthy run whose reference output has a move the candidate lacks:
a correctness discrepancy. -/
def envDiscrepancy : Env := ⟨true, true, 0, 0, "a2a3: 1".data, [], false⟩

/-- A healthy, clean run over equal outputs with distinct move keys,
including a breakdown block in the candidate output. -/
def envWithBreakdown : Env :=
  ⟨true, true, 0, 0, "e2e4: 20\nd2d4: 19".data,
    ("e2e4: 20\nd2d4: 19\n  - Captures: 1\n  - Checks: 2\n  - E.P: 3\n"
      ++ "  - Checkmates: 4\n  - Castles: 5\n  - Promotions: 6").data, false⟩

/-- `envWithBreakdown`'s candidate output with the breakdown block cut. -/
def hmNoBreakdown : List Char := "e2e4: 20\nd2d4: 19".data

/-! ## Dictionary lemmas -/

theorem dlookup_dinsert (k q : String) (v : α) (d : List (String × α)) :
    dlookup q (dinsert k v d) = if k = q then some v else dlookup q d := by
  induction d with
  | nil =>
    by_cases hq : k = q <;> simp [dinsert, dlookup, hq]
  | cons e es ih =>
    by_cases h : e.1 = k
    · rw [dinsert, if_pos h]
      by_cases hq : k = q
      · rw [dlookup, if_pos hq, if_pos hq]
      · have he : ¬e.1 = q := fun hh => hq (h.symm.trans hh)
        rw [dlookup, if_neg hq, if_neg hq, dlookup, if_neg he]
    · rw [dinsert, if_neg h]
      by_cases he : e.1 = q
      · have hkq : ¬k = q := fun hh => h (he.trans hh.symm)
        rw [dlookup, if_pos he, if_neg hkq, dlookup, if_pos he]
      · rw [dlookup, if_neg he, ih, dlookup, if_neg he]

theorem mem_keys_dinsert {q k : String} {v : α} {d : List (String × α)} :
    q ∈ (dinsert k v d).map Prod.fst ↔ q = k ∨ q ∈ d.map Prod.fst := by
  induction d with
  | nil => simp [dinsert, eq_comm]
  | cons e es ih =>
    by_cases h : e.1 = k
    · rw [dinsert, if_pos h]
      subst h
      simp [eq_comm]
    · rw [dinsert, if_neg h]
      simp only [List.map_cons, List.mem_cons, ih]
      tauto

theorem nodup_keys_dinsert (k : String) (v : α) (d : List (String × α))
    (h : (d.map Prod.fst).Nodup) : ((dinsert k v d).map Prod.fst).Nodup := by
  induction d with
  | nil => simp [dinsert]
  | cons e es ih =>
    simp only [List.map_cons, List.nodup_cons] at h
    by_cases he : e.1 = k
    · rw [dinsert, if_pos he]
      subst he
      simp only [List.map_cons, List.nodup_cons]
      exact h
    · rw [dinsert, if_neg he]
      simp only [List.map_cons, List.nodup_cons]
      refine ⟨fun hm => ?_, ih h.2⟩
      rcases mem_keys_dinsert.1 hm with h1 | h1
      · exact he h1
      · exact h.1 h1

theorem dlookup_isSome_iff (q : String) (d : List (String × α)) :
    (dlookup q d).isSome = true ↔ q ∈ d.map Prod.fst := by
  induction d with
  | nil => simp [dlookup]
  | cons e es ih =>
    by_cases h : e.1 = q
    · rw [dlookup, if_pos h]
      simp [h.symm]
    · rw [dlookup, if_neg h]
      have : ¬q = e.1 := fun hh => h hh.symm
      simp [ih, this]

theorem dlookup_of_mem_nodup {d : List (String × α)} {e : String × α}
    (h : (d.map Prod.fst).Nodup) (he : e ∈ d) : dlookup e.1 d = some e.2 := by
  induction d with
  | nil => cases he
  | cons x xs ih =>
    simp only [List.map_cons, List.nodup_cons] at h
    rcases List.mem_cons.1 he with rfl | hm
    · rw [dlookup, if_pos rfl]
    · have hne : ¬x.1 = e.1 := by
        intro hx
        exact h.1 (hx ▸ List.mem_map_of_mem Prod.fst hm)
      rw [dlookup, if_neg hne]
      exact ih h.2 hm

theorem mem_of_dlookup {d : List (String × α)} {q : String} {v : α}
    (h : dlookup q d = some v) : (q, v) ∈ d := by
  induction d with
  | nil => simp [dlookup] at h
  | cons e es ih =>
    rcases e with ⟨a, b⟩
    by_cases he : a = q
    · rw [dlookup, if_pos he] at h
      cases h
      subst he
      exact List.mem_cons_self _ _
    · rw [dlookup, if_neg he] at h
      exact List.mem_cons_of_mem _ (ih h)

/-! ## `vals` and `lastVal` lemmas -/

theorem vals_cons (k : String) (p : String × Nat) (ps : List (String × Nat)) :
    vals k (p :: ps) = if p.1 == k then p.2 :: vals k ps else vals k ps := by
  by_cases h : p.1 == k <;> simp [vals, List.filter_cons, h]

theorem lastVal_cons (k : String) (p : String × Nat) (ps : List (String × Nat)) :
    lastVal k (p :: ps) =
      (lastVal k ps).or (if p.1 == k then some p.2 else none) := by
  rw [lastVal, vals_cons]
  by_cases h : p.1 == k
  · simp only [h, if_true]
    cases hv : vals k ps with
    | nil => simp [lastVal, hv]
    | cons a l =>
      rw [lastVal, hv, List.getLast?_cons_cons]
      cases hg : (a :: l).getLast? with
      | none =>
        have := List.getLast?_isSome (l := a :: l)
        rw [hg] at this
        simp at this
      | some b => simp [Option.or]
  · simp [lastVal, h]

theorem vals_eq_nil_of_not_mem {k : String} {ms : List (String × Nat)}
    (h : k ∉ ms.map Prod.fst) : vals k ms = [] := by
  induction ms with
  | nil => simp [vals]
  | cons p ps ih =>
    simp only [List.map_cons, List.mem_cons, not_or] at h
    have : ¬(p.1 == k) = true := by
      simp only [beq_iff_eq]
      exact fun hh => h.1 hh.symm
    rw [vals_cons, if_neg this]
    exact ih h.2

theorem lastVal_isSome_iff (k : String) (ms : List (String × Nat)) :
    (lastVal k ms).isSome = true ↔ vals k ms ≠ [] := by
  rw [lastVal]
  exact List.getLast?_isSome

theorem vals_of_nodup (k : String) (ms : List (String × Nat))
    (h : (ms.map Prod.fst).Nodup) : vals k ms = (lastVal k ms).toList := by
  induction ms with
  | nil => simp [vals, lastVal]
  | cons p ps ih =>
    simp only [List.map_cons, List.nodup_cons] at h
    rw [vals_cons, lastVal_cons]
    by_cases hp : p.1 == k
    · have hk : k ∉ ps.map Prod.fst := by
        have : p.1 = k := by simpa using hp
        exact this ▸ h.1
      have hnil := vals_eq_nil_of_not_mem hk
      simp [hp, hnil, lastVal]
    · simp [hp, ih h.2]

/-! ## The built dictionaries, characterized -/

theorem dlookup_buildMap (ms : List (String × Nat)) (d : List (String × Nat))
    (k : String) :
    dlookup k (buildMap ms d) = (lastVal k ms).or (dlookup k d) := by
  induction ms generalizing d with
  | nil => simp [buildMap, lastVal, vals]
  | cons p ps ih =>
    rw [buildMap, ih, lastVal_cons, dlookup_dinsert]
    by_cases hp : p.1 == k
    · have : p.1 = k := by simpa using hp
      cases hv : (lastVal k ps) <;> simp [hp, this, Option.or]
    · have : ¬p.1 = k := by simpa using hp
      cases hv : (lastVal k ps) <;> simp [hp, this, Option.or]

theorem dlookup_moveCounts (text : List Char) (k : String) :
    dlookup k (moveCounts text) = lastVal k (findAll text) := by
  rw [moveCounts, dlookup_buildMap]
  simp [dlookup, Option.or_none]

theorem dlookup_buildAllRef (ms : List (String × Nat)) (d : List (String × List Nat))
    (k : String) :
    dlookup k (buildAllRef ms d) =
      ((lastVal k ms).map (fun v => [v])).or (dlookup k d) := by
  induction ms generalizing d with
  | nil => simp [buildAllRef, lastVal, vals]
  | cons p ps ih =>
    rw [buildAllRef, ih, lastVal_cons, dlookup_dinsert]
    by_cases hp : p.1 == k
    · have : p.1 = k := by simpa using hp
      cases hv : (lastVal k ps) <;> simp [hp, this, Option.or]
    · have : ¬p.1 = k := by simpa using hp
      cases hv : (lastVal k ps) <;> simp [hp, this, Option.or]

theorem dlookup_buildAllCand (ms : List (String × Nat)) (a : List (String × List Nat))
    (k : String) :
    dlookup k (buildAllCand ms a) =
      match dlookup k a with
      | some l => some (l ++ vals k ms)
      | none => if vals k ms = [] then none else some (vals k ms) := by
  induction ms generalizing a with
  | nil =>
    cases h : dlookup k a <;> simp [buildAllCand, vals, h]
  | cons p ps ih =>
    rw [buildAllCand, ih, vals_cons]
    by_cases hp : p.1 == k
    · have hpk : p.1 = k := by simpa using hp
      subst hpk
      cases h : dlookup p.1 a with
      | some l => simp [h, dlookup_dinsert, hp]
      | none => simp [h, dlookup_dinsert, hp]
    · have hpk : ¬p.1 = k := by simpa using hp
      cases h : dlookup p.1 a with
      | some l => simp [h, dlookup_dinsert, hp, hpk]
      | none => simp [h, dlookup_dinsert, hp, hpk]

/-- What `positions["all"]` holds at each key. -/
theorem dlookup_allPositions (sfMs hmMs : List (String × Nat)) (k : String) :
    dlookup k (allPositions sfMs hmMs) =
      if allValue sfMs hmMs k = [] then none else some (allValue sfMs hmMs k) := by
  rw [allPositions, dlookup_buildAllCand, dlookup_buildAllRef]
  simp only [dlookup, Option.or_none]
  cases h : lastVal k sfMs with
  | some v => simp [allValue, h]
  | none => simp [allValue, h]

theorem nodup_keys_buildMap (ms : List (String × Nat)) (d : List (String × Nat))
    (h : (d.map Prod.fst).Nodup) : ((buildMap ms d).map Prod.fst).Nodup := by
  induction ms generalizing d with
  | nil => exact h
  | cons p ps ih => exact ih _ (nodup_keys_dinsert _ _ _ h)

theorem nodup_keys_buildAllRef (ms : List (String × Nat)) (d : List (String × List Nat))
    (h : (d.map Prod.fst).Nodup) : ((buildAllRef ms d).map Prod.fst).Nodup := by
  induction ms generalizing d with
  | nil => exact h
  | cons p ps ih => exact ih _ (nodup_keys_dinsert _ _ _ h)

theorem nodup_keys_buildAllCand (ms : List (String × Nat)) (d : List (String × List Nat))
    (h : (d.map Prod.fst).Nodup) : ((buildAllCand ms d).map Prod.fst).Nodup := by
  induction ms generalizing d with
  | nil => exact h
  | cons p ps ih =>
    rw [buildAllCand]
    cases hp : dlookup p.1 d with
    | some l => exact ih _ (nodup_keys_dinsert _ _ _ h)
    | none => exact ih _ (nodup_keys_dinsert _ _ _ h)

theorem nodup_keys_allPositions (sfMs hmMs : List (String × Nat)) :
    ((allPositions sfMs hmMs).map Prod.fst).Nodup :=
  nodup_keys_buildAllCand _ _ (nodup_keys_buildAllRef _ _ (by simp))

/-! ## The classification loop, characterized -/

theorem classifyAll_eq (sf hm : List (String × Nat))
    (es : List (String × List Nat)) (r : Report) :
    classifyAll sf hm es r =
      { missingHeimdall := r.missingHeimdall ++ (es.filter (condMH sf)).map Prod.fst,
        missingStockfish := r.missingStockfish ++ (es.filter (condMS sf hm)).map Prod.fst,
        mistakes := r.mistakes ++ (es.filter (condMK sf hm)).map Prod.fst } := by
  induction es generalizing r with
  | nil => simp [classifyAll]
  | cons e es ih =>
    rw [classifyAll, ih]
    cases hsf : dlookup e.1 sf with
    | none =>
      simp [classifyStep, hsf, condMH, condMS, condMK, List.filter_cons]
    | some v =>
      cases hhm : dlookup e.1 hm with
      | none =>
        simp [classifyStep, hsf, hhm, condMH, condMS, condMK, List.filter_cons]
      | some w =>
        by_cases hne : e.2[0]? = e.2[1]?
        · simp [classifyStep, hsf, hhm, hne, condMH, condMS, condMK, List.filter_cons]
        · simp [classifyStep, hsf, hhm, hne, condMH, condMS, condMK, List.filter_cons]

/-- The report, as three filters over `positions["all"]`. -/
theorem reportOfMs_eq (sfMs hmMs : List (String × Nat)) :
    reportOfMs sfMs hmMs =
      { missingHeimdall :=
          ((allPositions sfMs hmMs).filter (condMH (buildMap sfMs []))).map Prod.fst,
        missingStockfish :=
          ((allPositions sfMs hmMs).filter
            (condMS (buildMap sfMs []) (buildMap hmMs []))).map Prod.fst,
        mistakes :=
          sortMoves (((allPositions sfMs hmMs).filter
            (condMK (buildMap sfMs []) (buildMap hmMs []))).map Prod.fst) } := by
  rw [reportOfMs, classifyAll_eq]
  simp

theorem dlookup_buildMap_nil (ms : List (String × Nat)) (k : String) :
    dlookup k (buildMap ms []) = lastVal k ms := by
  rw [dlookup_buildMap]
  simp [dlookup, Option.or_none]

theorem vals_ne_nil_iff (k : String) (ms : List (String × Nat)) :
    vals k ms ≠ [] ↔ k ∈ ms.map Prod.fst := by
  induction ms with
  | nil => simp [vals]
  | cons p ps ih =>
    rw [vals_cons]
    by_cases hp : p.1 == k
    · have : p.1 = k := by simpa using hp
      simp [hp, this]
    · have hne : ¬p.1 = k := by simpa using hp
      rw [if_neg hp, ih]
      simp only [List.map_cons, List.mem_cons]
      constructor
      · exact fun h => Or.inr h
      · rintro (h | h)
        · exact absurd h.symm hne
        · exact h

theorem isSome_buildMap_iff (ms : List (String × Nat)) (k : String) :
    (dlookup k (buildMap ms [])).isSome = true ↔ k ∈ ms.map Prod.fst := by
  rw [dlookup_buildMap_nil, lastVal_isSome_iff, vals_ne_nil_iff]

theorem allValue_ne_nil_iff (sfMs hmMs : List (String × Nat)) (k : String) :
    allValue sfMs hmMs k ≠ [] ↔
      (dlookup k (buildMap sfMs [])).isSome = true ∨
      (dlookup k (buildMap hmMs [])).isSome = true := by
  rw [allValue, dlookup_buildMap_nil, dlookup_buildMap_nil]
  cases h : lastVal k sfMs with
  | some v => simp [h]
  | none => simpa [h] using (lastVal_isSome_iff k hmMs).symm

theorem isSome_allPositions_iff (sfMs hmMs : List (String × Nat)) (k : String) :
    (dlookup k (allPositions sfMs hmMs)).isSome = true ↔
      (dlookup k (buildMap sfMs [])).isSome = true ∨
      (dlookup k (buildMap hmMs [])).isSome = true := by
  rw [dlookup_allPositions, ← allValue_ne_nil_iff]
  by_cases h : allValue sfMs hmMs k = [] <;> simp [h]

/-! ## Membership in the three report classes -/

theorem mem_missingStockfish_iff (sfMs hmMs : List (String × Nat)) (m : String) :
    m ∈ (reportOfMs sfMs hmMs).missingStockfish ↔
      ((dlookup m (buildMap sfMs [])).isSome = true ∧
       dlookup m (buildMap hmMs []) = none) := by
  rw [reportOfMs_eq]
  simp only [List.mem_map, List.mem_filter]
  constructor
  · rintro ⟨e, ⟨_, hc⟩, rfl⟩
    rw [condMS, Bool.and_eq_true, Option.isNone_iff_eq_none] at hc
    exact hc
  · rintro ⟨h1, h2⟩
    have hsome : (dlookup m (allPositions sfMs hmMs)).isSome = true :=
      (isSome_allPositions_iff sfMs hmMs m).2 (Or.inl h1)
    obtain ⟨ns, hns⟩ := Option.isSome_iff_exists.1 hsome
    refine ⟨(m, ns), ⟨mem_of_dlookup hns, ?_⟩, rfl⟩
    rw [condMS, Bool.and_eq_true, Option.isNone_iff_eq_none]
    exact ⟨h1, h2⟩

theorem mem_missingHeimdall_iff (sfMs hmMs : List (String × Nat)) (m : String) :
    m ∈ (reportOfMs sfMs hmMs).missingHeimdall ↔
      ((dlookup m (buildMap hmMs [])).isSome = true ∧
       dlookup m (buildMap sfMs []) = none) := by
  rw [reportOfMs_eq]
  simp only [List.mem_map, List.mem_filter]
  constructor
  · rintro ⟨e, ⟨he, hc⟩, rfl⟩
    rw [condMH, Option.isNone_iff_eq_none] at hc
    refine ⟨?_, hc⟩
    have := (isSome_allPositions_iff sfMs hmMs e.1).1
      ((dlookup_isSome_iff _ _).2 (List.mem_map_of_mem Prod.fst he))
    rcases this with h | h
    · rw [hc] at h
      simp at h
    · exact h
  · rintro ⟨h1, h2⟩
    have hsome : (dlookup m (allPositions sfMs hmMs)).isSome = true :=
      (isSome_allPositions_iff sfMs hmMs m).2 (Or.inr h1)
    obtain ⟨ns, hns⟩ := Option.isSome_iff_exists.1 hsome
    refine ⟨(m, ns), ⟨mem_of_dlookup hns, ?_⟩, rfl⟩
    rw [condMH, Option.isNone_iff_eq_none]
    exact h2

theorem mem_mistakes_both (sfMs hmMs : List (String × Nat)) (m : String)
    (h : m ∈ (reportOfMs sfMs hmMs).mistakes) :
    (dlookup m (buildMap sfMs [])).isSome = true ∧
      (dlookup m (buildMap hmMs [])).isSome = true := by
  rw [reportOfMs_eq] at h
  simp only [sortMoves, List.mem_insertionSort, List.mem_map, List.mem_filter] at h
  obtain ⟨e, ⟨_, hc⟩, rfl⟩ := h
  rw [condMK, Bool.and_eq_true, Bool.and_eq_true] at hc
  exact ⟨hc.1.1, hc.1.2⟩

/-! ## Claim C1 -/

/-- C1: every move key of the union of the two parsed mappings is classified
deterministically: `missing["stockfish"]` (printed as the legal moves the
candidate failed to generate) holds exactly the keys present in the
reference mapping and absent from the candidate mapping,
`missing["heimdall"]` (printed as the illegal moves the candidate
generated) holds exactly the keys present in the candidate mapping and
absent from the reference mapping, no key is in both missing lists, and a
key in the mismatch list is present in both mappings (hence in neither
missing list). -/
theorem claim_C1 (sfText hmText : List Char) (m : String) :
    (m ∈ (reportOf sfText hmText).missingStockfish ↔
      ((dlookup m (moveCounts sfText)).isSome = true ∧
       dlookup m (moveCounts hmText) = none)) ∧
    (m ∈ (reportOf sfText hmText).missingHeimdall ↔
      ((dlookup m (moveCounts hmText)).isSome = true ∧
       dlookup m (moveCounts sfText) = none)) ∧
    ¬(m ∈ (reportOf sfText hmText).missingStockfish ∧
      m ∈ (reportOf sfText hmText).missingHeimdall) ∧
    (m ∈ (reportOf sfText hmText).mistakes →
      (dlookup m (moveCounts sfText)).isSome = true ∧
      (dlookup m (moveCounts hmText)).isSome = true) := by
  have h1 := mem_missingStockfish_iff (findAll sfText) (findAll hmText) m
  have h2 := mem_missingHeimdall_iff (findAll sfText) (findAll hmText) m
  have h3 := mem_mistakes_both (findAll sfText) (findAll hmText) m
  refine ⟨h1, h2, ?_, h3⟩
  rintro ⟨hs, hh⟩
  have hs' := h1.1 hs
  have hh' := h2.1 hh
  rw [hh'.2] at hs'
  simp at hs'

/-! ## Claim C3 -/

/-- C3: the per-engine mapping parsed from an output text has exactly the
concatenated move tokens of the pattern's non-overlapping matches as its
keys, and stores, for each key, the count of the last match carrying that
key (later duplicates overwrite earlier ones). -/
theorem claim_C3 (text : List Char) (k : String) :
    dlookup k (moveCounts text) = lastVal k (findAll text) ∧
    ((dlookup k (moveCounts text)).isSome = true ↔
      k ∈ (findAll text).map Prod.fst) :=
  ⟨dlookup_moveCounts text k, isSome_buildMap_iff (findAll text) k⟩

/-! ## Claim C2 -/

/-- C2: the single-position run exits 0 exactly when both executables
resolved, both engine processes exited 0 and the report is clean; it exits
2 exactly when an executable failed to resolve, 3 exactly when both
resolved but an engine exited non-zero, and 1 exactly when the run was
healthy but the report is not clean. -/
theorem claim_C2 (e : Env) :
    (mainExit e = 0 ↔
      (e.stockfishFound = true ∧ e.heimdallFound = true ∧
       e.stockfishExit = 0 ∧ e.heimdallExit = 0 ∧
       cleanReport (reportOf e.stockfishOutput e.heimdallOutput) = true)) ∧
    (mainExit e = 2 ↔ (e.stockfishFound = false ∨ e.heimdallFound = false)) ∧
    (mainExit e = 3 ↔
      (e.stockfishFound = true ∧ e.heimdallFound = true ∧
       (e.stockfishExit ≠ 0 ∨ e.heimdallExit ≠ 0))) ∧
    (mainExit e = 1 ↔
      (e.stockfishFound = true ∧ e.heimdallFound = true ∧
       e.stockfishExit = 0 ∧ e.heimdallExit = 0 ∧
       cleanReport (reportOf e.stockfishOutput e.heimdallOutput) = false)) := by
  obtain ⟨sf, hf, se, he, so, ho, b⟩ := e
  cases sf <;> cases hf
  · simp [mainExit, mainRun]
  · simp [mainExit, mainRun]
  · simp [mainExit, mainRun]
  · by_cases hse : se = 0 <;> by_cases hhe : he = 0 <;>
      cases hcr : cleanReport (reportOf so ho) <;>
        simp [mainExit, mainRun, hse, hhe, hcr]

/-! ## The sequential suite loop, characterized -/

theorem runSeqAux_eq (envOf : String → Env) (fens : List String)
    (acc : List String × List String) :
    runSeqAux envOf fens acc =
      (acc.1 ++ fens.filter (fun fen => mainExit (envOf fen) == 0),
       acc.2 ++ fens.filter (fun fen => !(mainExit (envOf fen) == 0))) := by
  induction fens generalizing acc with
  | nil => simp [runSeqAux]
  | cons fen rest ih =>
    rw [runSeqAux, ih]
    cases h : mainExit (envOf fen) == 0 <;> simp [h, List.filter_cons]

/-! ## Claim C5 -/

/-- C5 as stated is false: a launch failure (exit 2) and a correctness
failure (exit 1) leave identical tallies, so the sequential suite's
summary cannot distinguish them.  Both single-position runs below are
classified into the same `failed` list with the same resulting state. -/
theorem claim_C5_cex :
    mainExit envLaunchFail = 2 ∧ mainExit envDiscrepancy = 1 ∧
    runSeq (fun _ => envLaunchFail) ["p"] = ([], ["p"]) ∧
    runSeq (fun _ => envDiscrepancy) ["p"] = ([], ["p"]) :=
  ⟨by decide, by decide, by decide, by decide⟩

/-- C5 amended: in a sequential suite run every position lands in exactly
one of the two tallies — `successful` holds exactly the positions whose
validation exited 0, `failed` all the others (launch failures, engine
crashes and correctness failures alike, which is why the summary cannot
tell exit 2 from exit 1) — and the two tallies together exhaust the
positions file, so no position is dropped and every remaining position is
still validated. -/
theorem claim_C5_amended (envOf : String → Env) (lines : List String) :
    runSeq envOf lines =
      ((seqFens lines).filter (fun fen => mainExit (envOf fen) == 0),
       (seqFens lines).filter (fun fen => !(mainExit (envOf fen) == 0))) ∧
    (runSeq envOf lines).1.length + (runSeq envOf lines).2.length =
      lines.length := by
  have h := runSeqAux_eq envOf (seqFens lines) ([], [])
  simp only [List.nil_append] at h
  refine ⟨h, ?_⟩
  rw [runSeq, h]
  have hperm :=
    (List.filter_append_perm (fun fen => mainExit (envOf fen) == 0)
      (seqFens lines)).length_eq
  rw [List.length_append] at hperm
  rw [hperm, seqFens, List.length_map]

/-! ## Suite line handling: helper lemmas -/

theorem foldl_max_init_le (xs : List Nat) (z : Nat) : z ≤ xs.foldl Nat.max z := by
  induction xs generalizing z with
  | nil => exact Nat.le_refl z
  | cons x xs ih => exact Nat.le_trans (Nat.le_max_left z x) (ih (Nat.max z x))

theorem le_foldl_max {xs : List Nat} {x : Nat} (h : x ∈ xs) (z : Nat) :
    x ≤ xs.foldl Nat.max z := by
  induction xs generalizing z with
  | nil => cases h
  | cons y ys ih =>
    rcases List.mem_cons.1 h with rfl | h
    · exact Nat.le_trans (Nat.le_max_right z x) (foldl_max_init_le ys _)
    · exact ih h _

theorem length_le_longestLen {lines : List String} {l : String} (h : l ∈ lines) :
    l.length ≤ longestLen lines :=
  le_foldl_max (List.mem_map_of_mem String.length h) 0

theorem stripSpaces_length_le (s : String) : (stripSpaces s).length ≤ s.length := by
  have h1 : (stripSpaces s).length
      = ((s.data.dropWhile (· == ' ')).reverse.dropWhile (· == ' ')).length := by
    simp [stripSpaces, String.length]
  rw [h1]
  have h2 := (List.dropWhile_sublist (l := (s.data.dropWhile (· == ' ')).reverse)
    (· == ' ')).length_le
  have h3 := (List.dropWhile_sublist (l := s.data) (· == ' ')).length_le
  simp only [List.length_reverse] at h2
  exact Nat.le_trans h2 h3

theorem string_eq_empty_iff (s : String) : s = "" ↔ s.length = 0 := by
  constructor
  · intro h
    rw [h]
    exact rfl
  · intro h
    obtain ⟨l⟩ := s
    have hl : l = [] := List.length_eq_zero.1 h
    rw [hl]

theorem padTo_length {n : Nat} {s : String} (h : s.length ≤ n) :
    (padTo n s).length = n := by
  have : (String.mk (List.replicate (n - s.length) ' ')).length = n - s.length := by
    show (List.replicate (n - s.length) ' ').length = n - s.length
    exact List.length_replicate _ _
  rw [padTo, String.length_append, this]
  omega

theorem positionCommand_eq_startpos_iff (fen : String) :
    positionCommand fen = PosCommand.startpos ↔ fen = "" := by
  by_cases h : fen = "" <;> simp [positionCommand, h]

/-! ## Claim C6 -/

/-- C6 as stated is false in sequential mode: in the two-line file
`["aa", ""]` the empty second line is stripped and then padded back to two
spaces (the longest raw line length), and since the padded string is
truthy the validator sends `position fen "  "`, not `position startpos`. -/
theorem claim_C6_cex :
    seqFens ["aa", ""] = ["aa", "  "] ∧
    positionCommand ((seqFens ["aa", ""]).getD 1 "") = PosCommand.fen "  " :=
  ⟨by decide, by decide⟩

/-- C6 amended: in parallel mode each line is used with its surrounding
spaces (only) stripped, and a line that strips to the empty string makes
the validator send `startpos`.  In sequential mode the stripped line is
right-padded with spaces to the longest raw line length before use, so
the command for any line is `startpos` exactly when the longest line of
the file is empty (that is, when every line of the file is empty). -/
theorem claim_C6_amended (lines : List String) (i : Nat) (h : i < lines.length) :
    (parFens lines).getD i "" = stripSpaces (lines.getD i "") ∧
    (stripSpaces (lines.getD i "") = "" →
      positionCommand ((parFens lines).getD i "") = PosCommand.startpos) ∧
    (seqFens lines).getD i "" =
      padTo (longestLen lines) (stripSpaces (lines.getD i "")) ∧
    (positionCommand ((seqFens lines).getD i "") = PosCommand.startpos ↔
      longestLen lines = 0) := by
  have hpar : (parFens lines).getD i "" = stripSpaces (lines.getD i "") := by
    rw [parFens, List.getD_eq_getElem _ _ (by simpa using h),
      List.getD_eq_getElem _ _ h, List.getElem_map]
  have hseq : (seqFens lines).getD i "" =
      padTo (longestLen lines) (stripSpaces (lines.getD i "")) := by
    rw [seqFens, List.getD_eq_getElem _ _ (by simpa using h),
      List.getD_eq_getElem _ _ h, List.getElem_map]
  refine ⟨hpar, ?_, hseq, ?_⟩
  · intro hempty
    rw [hpar, hempty]
    simp [positionCommand]
  · rw [hseq, positionCommand_eq_startpos_iff, string_eq_empty_iff]
    have hmem : lines.getD i "" ∈ lines := by
      rw [List.getD_eq_getElem _ _ h]
      exact List.getElem_mem h
    have hle : (stripSpaces (lines.getD i "")).length ≤ longestLen lines :=
      Nat.le_trans (stripSpaces_length_le _) (length_le_longestLen hmem)
    rw [padTo_length hle]

/-! ## Claim C10 -/

/-- C10 as stated is false on one input: with an empty positions file,
line 17\'s `max(sorted([]))` raises `ValueError` before any position is
processed, so `main` does not return `None` and the interpreter exits 1. -/
theorem claim_C10_cex :
    suiteMainSeq (fun _ => envDiscrepancy) [] = SuiteOutcome.raised ∧
    suiteExitStatus (suiteMainSeq (fun _ => envDiscrepancy) []) = 1 :=
  ⟨rfl, rfl⟩

/-- C10 amended: whenever the positions file yields at least one line,
`suite.main` returns `None` in both sequential and parallel mode —
whatever each position\'s validation exit code was — so
`sys.exit(main(...))` exits with status 0; per-position exit codes
0/1/2/3 are never propagated to the suite\'s own exit status. -/
theorem claim_C10_amended (envOf : String → Env) (lines : List String)
    (completed : List String) (h : lines ≠ []) :
    suiteMainSeq envOf lines =
      SuiteOutcome.returned (runSeq envOf lines).1 (runSeq envOf lines).2 none ∧
    suiteMainPar envOf lines completed =
      SuiteOutcome.returned
        (completed.filter (fun fen => mainExit (envOf fen) == 0))
        (completed.filter (fun fen => !(mainExit (envOf fen) == 0))) none ∧
    suiteExitStatus (suiteMainSeq envOf lines) = 0 ∧
    suiteExitStatus (suiteMainPar envOf lines completed) = 0 := by
  have hne : lines.isEmpty = false := by
    cases lines with
    | nil => exact absurd rfl h
    | cons a l => rfl
  refine ⟨?_, ?_, ?_, ?_⟩ <;>
    simp [suiteMainSeq, suiteMainPar, hne, suiteExitStatus]

theorem claim_C10_witness :
    (["p"] : List String) ≠ [] ∧
    suiteExitStatus (suiteMainSeq (fun _ => envDiscrepancy) ["p"]) = 0 ∧
    suiteExitStatus (suiteMainPar (fun _ => envDiscrepancy) ["p"] ["p"]) = 0 :=
  ⟨by decide,
    (claim_C10_amended (fun _ => envDiscrepancy) ["p"] ["p"] (by decide)).2.2.1,
    (claim_C10_amended (fun _ => envDiscrepancy) ["p"] ["p"] (by decide)).2.2.2⟩

/-! ## Claim C8 -/

/-- C8: breakdown parsing is attempted only on the candidate engine\'s
output and only when bulk mode is off (`bulk = true` forces an absent
breakdown, and swapping the reference output never changes the parsed
breakdown), and an absent or altered breakdown block is never fatal: any
candidate output with the same move-count matches yields the same report
and the same exit code.  The six-line contiguity of the block is the
definition of `matchBreakdownAt`. -/
theorem claim_C8 (e : Env) (sfOut hmOut : List Char)
    (hmv : findAll hmOut = findAll e.heimdallOutput) :
    (e.bulk = true → (mainRun e).breakdown = none) ∧
    ((mainRun { e with stockfishOutput := sfOut }).breakdown =
      (mainRun e).breakdown) ∧
    ((mainRun { e with heimdallOutput := hmOut }).exitCode =
      (mainRun e).exitCode) ∧
    ((mainRun { e with heimdallOutput := hmOut }).report =
      (mainRun e).report) := by
  obtain ⟨sf, hf, se, he, so, ho, b⟩ := e
  simp only at hmv
  cases sf
  · simp [mainRun]
  · cases hf
    · simp [mainRun]
    · by_cases hse : se = 0 ∧ he = 0
      · cases b <;> simp [mainRun, hse, reportOf, hmv]
      · simp [mainRun, hse]

theorem claim_C8_witness :
    findAll hmNoBreakdown = findAll envWithBreakdown.heimdallOutput ∧
    (envWithBreakdown.bulk = true → (mainRun envWithBreakdown).breakdown = none) ∧
    ((mainRun { envWithBreakdown with stockfishOutput := [] }).breakdown =
      (mainRun envWithBreakdown).breakdown) ∧
    ((mainRun { envWithBreakdown with heimdallOutput := hmNoBreakdown }).exitCode =
      (mainRun envWithBreakdown).exitCode) ∧
    ((mainRun { envWithBreakdown with heimdallOutput := hmNoBreakdown }).report =
      (mainRun envWithBreakdown).report) :=
  ⟨by decide, claim_C8 envWithBreakdown [] hmNoBreakdown (by decide)⟩

theorem claim_C6_witness :
    0 < ([" x ", ""] : List String).length ∧
    ((parFens [" x ", ""]).getD 0 "" =
        stripSpaces (([" x ", ""] : List String).getD 0 "") ∧
      (stripSpaces (([" x ", ""] : List String).getD 0 "") = "" →
        positionCommand ((parFens [" x ", ""]).getD 0 "") = PosCommand.startpos) ∧
      (seqFens [" x ", ""]).getD 0 "" =
        padTo (longestLen [" x ", ""])
          (stripSpaces (([" x ", ""] : List String).getD 0 "")) ∧
      (positionCommand ((seqFens [" x ", ""]).getD 0 "") = PosCommand.startpos ↔
        longestLen [" x ", ""] = 0)) :=
  ⟨by decide, claim_C6_amended [" x ", ""] 0 (by decide)⟩

/-! ## Mistakes membership for duplicate-free candidate output -/

theorem entry_value_allPositions {sfMs hmMs : List (String × Nat)}
    {e : String × List Nat} (he : e ∈ allPositions sfMs hmMs) :
    e.2 = allValue sfMs hmMs e.1 := by
  have hval : dlookup e.1 (allPositions sfMs hmMs) = some e.2 :=
    dlookup_of_mem_nodup (nodup_keys_allPositions _ _) he
  rw [dlookup_allPositions] at hval
  by_cases hc : allValue sfMs hmMs e.1 = []
  · rw [if_pos hc] at hval
    cases hval
  · rw [if_neg hc] at hval
    exact (Option.some.inj hval).symm

theorem mem_mistakes_iff_of_nodup (sfMs hmMs : List (String × Nat)) (m : String)
    (hnd : (hmMs.map Prod.fst).Nodup) :
    m ∈ (reportOfMs sfMs hmMs).mistakes ↔
      ∃ a b, dlookup m (buildMap sfMs []) = some a ∧
        dlookup m (buildMap hmMs []) = some b ∧ a ≠ b := by
  rw [reportOfMs_eq]
  simp only [sortMoves, List.mem_insertionSort, List.mem_map, List.mem_filter]
  constructor
  · rintro ⟨e, ⟨he, hc⟩, rfl⟩
    rw [condMK, Bool.and_eq_true, Bool.and_eq_true] at hc
    obtain ⟨⟨hsf, hhm⟩, hne⟩ := hc
    obtain ⟨a, ha⟩ := Option.isSome_iff_exists.1 hsf
    obtain ⟨b, hb⟩ := Option.isSome_iff_exists.1 hhm
    refine ⟨a, b, ha, hb, ?_⟩
    have hsf' : lastVal e.1 sfMs = some a := by
      rw [← dlookup_buildMap_nil]
      exact ha
    have hhm' : lastVal e.1 hmMs = some b := by
      rw [← dlookup_buildMap_nil]
      exact hb
    have hv : vals e.1 hmMs = [b] := by
      rw [vals_of_nodup _ _ hnd, hhm']
      rfl
    have he22 : e.2 = [a, b] := by
      rw [entry_value_allPositions he, allValue, hsf', hv]
      rfl
    intro hab
    rw [he22, hab] at hne
    simp at hne
  · rintro ⟨a, b, ha, hb, hne⟩
    have hsf' : lastVal m sfMs = some a := by
      rw [← dlookup_buildMap_nil]
      exact ha
    have hhm' : lastVal m hmMs = some b := by
      rw [← dlookup_buildMap_nil]
      exact hb
    have hv : vals m hmMs = [b] := by
      rw [vals_of_nodup _ _ hnd, hhm']
      rfl
    have hall : dlookup m (allPositions sfMs hmMs) = some [a, b] := by
      rw [dlookup_allPositions]
      have hav : allValue sfMs hmMs m = [a, b] := by
        rw [allValue, hsf', hv]
        rfl
      rw [hav]
      simp
    refine ⟨(m, [a, b]), ⟨mem_of_dlookup hall, ?_⟩, rfl⟩
    rw [condMK, Bool.and_eq_true, Bool.and_eq_true]
    refine ⟨⟨by simp [ha], by simp [hb]⟩, ?_⟩
    simpa using hne

/-! ## Claim C4 -/

/-- C4 as stated is false when the candidate output repeats a move key:
with reference output `"a2a3: 1"` and candidate output
`"a2a3: 1\na2a3: 2"` the parsed mappings store 1 and 2 for `a2a3` (last
match wins), yet the mismatch list is empty, because the classification
compares the entry of `positions["all"]`, which holds the candidate\'s
first count, not its last. -/
theorem claim_C4_cex :
    dlookup "a2a3" (moveCounts "a2a3: 1".data) = some 1 ∧
    dlookup "a2a3" (moveCounts "a2a3: 1\na2a3: 2".data) = some 2 ∧
    (reportOf "a2a3: 1".data "a2a3: 1\na2a3: 2".data).mistakes = [] :=
  ⟨by decide, by decide, by decide⟩

/-- C4 amended: provided no move key matches more than once in the
candidate output, the mismatch list holds exactly the moves present in
both parsed mappings whose stored counts differ, and it is sorted
ascending by lexical order on the move token. -/
theorem claim_C4_amended (sfText hmText : List Char) (m : String)
    (hnd : ((findAll hmText).map Prod.fst).Nodup) :
    (m ∈ (reportOf sfText hmText).mistakes ↔
      ∃ a b, dlookup m (moveCounts sfText) = some a ∧
        dlookup m (moveCounts hmText) = some b ∧ a ≠ b) ∧
    List.Sorted (fun a b : String => a ≤ b) (reportOf sfText hmText).mistakes := by
  constructor
  · exact mem_mistakes_iff_of_nodup (findAll sfText) (findAll hmText) m hnd
  · rw [reportOf, reportOfMs_eq]
    exact List.sorted_insertionSort _ _

theorem claim_C4_witness :
    ((findAll "e2e4: 20\nd2d4: 19".data).map Prod.fst).Nodup ∧
    (("d2d4" ∈ (reportOf "e2e4: 20\nd2d4: 20".data "e2e4: 20\nd2d4: 19".data).mistakes ↔
      ∃ a b, dlookup "d2d4" (moveCounts "e2e4: 20\nd2d4: 20".data) = some a ∧
        dlookup "d2d4" (moveCounts "e2e4: 20\nd2d4: 19".data) = some b ∧ a ≠ b) ∧
     List.Sorted (fun a b : String => a ≤ b)
       (reportOf "e2e4: 20\nd2d4: 20".data "e2e4: 20\nd2d4: 19".data).mistakes) :=
  ⟨by decide,
    claim_C4_amended "e2e4: 20\nd2d4: 20".data "e2e4: 20\nd2d4: 19".data "d2d4" (by decide)⟩

/-! ## Claim C9 -/

/-- C9 as stated is false when the shared output repeats a move key: the
text `"a1a2: 1\na1a2: 2"` parses to the same mapping on both sides, yet
comparing it against itself flags `a1a2` as a counting mistake (the entry
of `positions["all"]` pairs the reference\'s last count with the
candidate\'s first), so the run exits 1 instead of 0. -/
theorem claim_C9_cex :
    cleanReport (reportOf "a1a2: 1\na1a2: 2".data "a1a2: 1\na1a2: 2".data) = false ∧
    (reportOf "a1a2: 1\na1a2: 2".data "a1a2: 1\na1a2: 2".data).mistakes = ["a1a2"] ∧
    mainExit ⟨true, true, 0, 0, "a1a2: 1\na1a2: 2".data,
      "a1a2: 1\na1a2: 2".data, false⟩ = 1 :=
  ⟨by decide, by decide, by decide⟩

/-- C9 amended: comparing an output against itself yields a clean report
provided no move key matches more than once in the output (in particular
a healthy such run exits 0), and two empty outputs (depth 0) yield the
empty, clean report. -/
theorem claim_C9_amended (t : List Char)
    (hnd : ((findAll t).map Prod.fst).Nodup) :
    cleanReport (reportOf t t) = true ∧
    reportOf [] [] = ⟨[], [], []⟩ := by
  constructor
  · have hms : (reportOf t t).missingStockfish = [] := by
      rw [List.eq_nil_iff_forall_not_mem]
      intro m hm
      have hiff := (mem_missingStockfish_iff (findAll t) (findAll t) m).1 hm
      rw [hiff.2] at hiff
      simp at hiff
    have hmh : (reportOf t t).missingHeimdall = [] := by
      rw [List.eq_nil_iff_forall_not_mem]
      intro m hm
      have hiff := (mem_missingHeimdall_iff (findAll t) (findAll t) m).1 hm
      rw [hiff.2] at hiff
      simp at hiff
    have hmk : (reportOf t t).mistakes = [] := by
      rw [List.eq_nil_iff_forall_not_mem]
      intro m hm
      obtain ⟨a, b, ha, hb, hne⟩ :=
        (mem_mistakes_iff_of_nodup (findAll t) (findAll t) m hnd).1 hm
      rw [ha] at hb
      exact hne (Option.some.inj hb)
    simp [cleanReport, hms, hmh, hmk]
  · rfl

theorem claim_C9_witness :
    ((findAll "e2e4: 20\nd2d4: 19".data).map Prod.fst).Nodup ∧
    (cleanReport (reportOf "e2e4: 20\nd2d4: 19".data "e2e4: 20\nd2d4: 19".data) = true ∧
     reportOf [] [] = ⟨[], [], []⟩) :=
  ⟨by decide, claim_C9_amended "e2e4: 20\nd2d4: 19".data (by decide)⟩

/-! ## Sum lemmas for the totals identity (Claim C7) -/

theorem sum_map_sub_int {α : Type} (l : List α) (f g : α → Int) :
    (l.map (fun x => f x - g x)).sum = (l.map f).sum - (l.map g).sum := by
  induction l with
  | nil => simp
  | cons x xs ih =>
    simp only [List.map_cons, List.sum_cons, ih]
    ring

theorem sum_map_add_int {α : Type} (l : List α) (f g : α → Int) :
    (l.map (fun x => f x + g x)).sum = (l.map f).sum + (l.map g).sum := by
  induction l with
  | nil => simp
  | cons x xs ih =>
    simp only [List.map_cons, List.sum_cons, ih]
    ring

theorem sum_filter_eq_sum_ite {α : Type} (l : List α) (c : α → Bool) (f : α → Int) :
    ((l.filter c).map f).sum = (l.map (fun x => if c x then f x else 0)).sum := by
  induction l with
  | nil => simp
  | cons x xs ih =>
    cases h : c x <;> simp [List.filter_cons, h, ih]

theorem totalOf_eq_sum_keys (d : List (String × Nat))
    (h : (d.map Prod.fst).Nodup) :
    (totalOf d : Int) = ((d.map Prod.fst).map (lookVal d)).sum := by
  induction d with
  | nil => simp [totalOf]
  | cons e es ih =>
    simp only [List.map_cons, List.nodup_cons] at h
    have hcongr : (es.map Prod.fst).map (lookVal (e :: es))
        = (es.map Prod.fst).map (lookVal es) := by
      apply List.map_congr_left
      intro m hm
      have hne : ¬e.1 = m := fun hh => h.1 (hh ▸ hm)
      rw [lookVal, lookVal, dlookup, if_neg hne]
    have hhead : lookVal (e :: es) e.1 = (e.2 : Int) := by
      rw [lookVal, dlookup, if_pos rfl]
      rfl
    have htot : (totalOf (e :: es) : Int) = (e.2 : Int) + (totalOf es : Int) := by
      rw [totalOf, totalOf]
      simp only [List.map_cons, List.sum_cons]
      push_cast
      ring
    rw [htot, ih h.2, List.map_cons, List.map_cons, List.sum_cons, hhead, hcongr]

theorem sum_keys_extend (K : List String) (d : List (String × Nat))
    (hK : K.Nodup) (hd : (d.map Prod.fst).Nodup)
    (hsub : ∀ m ∈ d.map Prod.fst, m ∈ K) :
    ((d.map Prod.fst).map (lookVal d)).sum = (K.map (lookVal d)).sum := by
  rw [← List.sum_toFinset _ hd, ← List.sum_toFinset _ hK]
  apply Finset.sum_subset
  · intro m hm
    rw [List.mem_toFinset] at hm
    rw [List.mem_toFinset]
    exact hsub m hm
  · intro m _ hmd
    rw [List.mem_toFinset] at hmd
    have hnone : dlookup m d = none := by
      cases hl : dlookup m d with
      | none => rfl
      | some v =>
        exact absurd ((dlookup_isSome_iff m d).1 (by simp [hl])) hmd
    rw [lookVal, hnone]
    rfl

theorem pointwise_contrib (sfMs hmMs : List (String × Nat))
    (hnd : (hmMs.map Prod.fst).Nodup) (e : String × List Nat)
    (he : e ∈ allPositions sfMs hmMs) :
    (if condMK (buildMap sfMs []) (buildMap hmMs []) e
        then lookVal (buildMap sfMs []) e.1 - lookVal (buildMap hmMs []) e.1 else 0)
      + (if condMS (buildMap sfMs []) (buildMap hmMs []) e
          then lookVal (buildMap sfMs []) e.1 else 0)
      - (if condMH (buildMap sfMs []) e then lookVal (buildMap hmMs []) e.1 else 0)
    = lookVal (buildMap sfMs []) e.1 - lookVal (buildMap hmMs []) e.1 := by
  cases hsf : dlookup e.1 (buildMap sfMs []) with
  | none =>
    simp [condMH, condMS, condMK, hsf, lookVal]
  | some a =>
    cases hhm : dlookup e.1 (buildMap hmMs []) with
    | none =>
      simp [condMH, condMS, condMK, hsf, hhm, lookVal]
    | some b =>
      have hsf' : lastVal e.1 sfMs = some a := by
        rw [← dlookup_buildMap_nil]
        exact hsf
      have hhm' : lastVal e.1 hmMs = some b := by
        rw [← dlookup_buildMap_nil]
        exact hhm
      have hv : vals e.1 hmMs = [b] := by
        rw [vals_of_nodup _ _ hnd, hhm']
        rfl
      have he22 : e.2 = [a, b] := by
        rw [entry_value_allPositions he, allValue, hsf', hv]
        rfl
      by_cases hab : a = b
      · subst hab
        simp [condMK, condMH, condMS, hsf, hhm, he22, lookVal]
      · simp [condMK, condMH, condMS, hsf, hhm, he22, lookVal, hab]

theorem total_difference_eq (sfMs hmMs : List (String × Nat))
    (hnd : (hmMs.map Prod.fst).Nodup) :
    (totalOf (buildMap sfMs []) : Int) - (totalOf (buildMap hmMs []) : Int) =
      ((reportOfMs sfMs hmMs).mistakes.map
        (fun m => lookVal (buildMap sfMs []) m - lookVal (buildMap hmMs []) m)).sum
      + ((reportOfMs sfMs hmMs).missingStockfish.map
          (lookVal (buildMap sfMs []))).sum
      - ((reportOfMs sfMs hmMs).missingHeimdall.map
          (lookVal (buildMap hmMs []))).sum := by
  have hKnd := nodup_keys_allPositions sfMs hmMs
  have hsfnd : ((buildMap sfMs []).map Prod.fst).Nodup :=
    nodup_keys_buildMap sfMs [] (by simp)
  have hhmnd : ((buildMap hmMs []).map Prod.fst).Nodup :=
    nodup_keys_buildMap hmMs [] (by simp)
  have hsubsf : ∀ m ∈ (buildMap sfMs []).map Prod.fst,
      m ∈ (allPositions sfMs hmMs).map Prod.fst := by
    intro m hm
    rw [← dlookup_isSome_iff] at hm
    rw [← dlookup_isSome_iff]
    exact (isSome_allPositions_iff sfMs hmMs m).2 (Or.inl hm)
  have hsubhm : ∀ m ∈ (buildMap hmMs []).map Prod.fst,
      m ∈ (allPositions sfMs hmMs).map Prod.fst := by
    intro m hm
    rw [← dlookup_isSome_iff] at hm
    rw [← dlookup_isSome_iff]
    exact (isSome_allPositions_iff sfMs hmMs m).2 (Or.inr hm)
  have hmid : (totalOf (buildMap sfMs []) : Int) - totalOf (buildMap hmMs []) =
      ((allPositions sfMs hmMs).map
        (fun e => lookVal (buildMap sfMs []) e.1
          - lookVal (buildMap hmMs []) e.1)).sum := by
    rw [totalOf_eq_sum_keys _ hsfnd, totalOf_eq_sum_keys _ hhmnd,
      sum_keys_extend _ _ hKnd hsfnd hsubsf,
      sum_keys_extend _ _ hKnd hhmnd hsubhm, ← sum_map_sub_int, List.map_map]
    rfl
  have hrhs :
      ((reportOfMs sfMs hmMs).mistakes.map
        (fun m => lookVal (buildMap sfMs []) m - lookVal (buildMap hmMs []) m)).sum
      + ((reportOfMs sfMs hmMs).missingStockfish.map
          (lookVal (buildMap sfMs []))).sum
      - ((reportOfMs sfMs hmMs).missingHeimdall.map
          (lookVal (buildMap hmMs []))).sum =
      ((allPositions sfMs hmMs).map
        (fun e => lookVal (buildMap sfMs []) e.1
          - lookVal (buildMap hmMs []) e.1)).sum := by
    rw [reportOfMs_eq]
    have hperm :
        ((sortMoves (((allPositions sfMs hmMs).filter
            (condMK (buildMap sfMs []) (buildMap hmMs []))).map Prod.fst)).map
          (fun m => lookVal (buildMap sfMs []) m
            - lookVal (buildMap hmMs []) m)).sum =
        ((((allPositions sfMs hmMs).filter
            (condMK (buildMap sfMs []) (buildMap hmMs []))).map Prod.fst).map
          (fun m => lookVal (buildMap sfMs []) m
            - lookVal (buildMap hmMs []) m)).sum := by
      exact ((List.perm_insertionSort _ _).map _).sum_eq
    rw [hperm, List.map_map, List.map_map, List.map_map,
      sum_filter_eq_sum_ite, sum_filter_eq_sum_ite, sum_filter_eq_sum_ite,
      ← sum_map_add_int, ← sum_map_sub_int]
    exact congrArg List.sum
      (List.map_congr_left (fun e he => pointwise_contrib sfMs hmMs hnd e he))
  rw [hmid]
  exact hrhs.symm

/-! ## Claim C7 -/

/-- C7 as stated is false when the candidate output repeats a move key:
with reference output `"a2a3: 1"` and candidate output
`"a2a3: 1\na2a3: 2"` the signed total difference is `-1`, while the
mismatch list is empty and no move is missing on either side, so the sum
of per-move differences over the three classes is `0`. -/
theorem claim_C7_cex :
    (totalOf (moveCounts "a2a3: 1".data) : Int)
        - totalOf (moveCounts "a2a3: 1\na2a3: 2".data) = -1 ∧
    ((reportOf "a2a3: 1".data "a2a3: 1\na2a3: 2".data).mistakes.map
        (fun m => lookVal (moveCounts "a2a3: 1".data) m
          - lookVal (moveCounts "a2a3: 1\na2a3: 2".data) m)).sum
      + ((reportOf "a2a3: 1".data "a2a3: 1\na2a3: 2".data).missingStockfish.map
          (lookVal (moveCounts "a2a3: 1".data))).sum
      - ((reportOf "a2a3: 1".data "a2a3: 1\na2a3: 2".data).missingHeimdall.map
          (lookVal (moveCounts "a2a3: 1\na2a3: 2".data))).sum = 0 ∧
    ((-1 : Int) ≠ 0) :=
  ⟨by decide, by decide, by decide⟩

/-- C7 amended: `totalReference`/`totalCandidate` are the sums of the
counts stored in the two parsed mappings (that is how lines 99-100
compute them), and provided no move key matches more than once in the
candidate output, the signed difference `totalReference - totalCandidate`
equals the sum of per-move mapping differences over the mismatch list,
plus the mapped counts of the moves only in the reference, minus the
mapped counts of the moves only in the candidate. -/
theorem claim_C7_amended (sfText hmText : List Char)
    (hnd : ((findAll hmText).map Prod.fst).Nodup) :
    (totalOf (moveCounts sfText) : Int) - totalOf (moveCounts hmText) =
      ((reportOf sfText hmText).mistakes.map
        (fun m => lookVal (moveCounts sfText) m - lookVal (moveCounts hmText) m)).sum
      + ((reportOf sfText hmText).missingStockfish.map
          (lookVal (moveCounts sfText))).sum
      - ((reportOf sfText hmText).missingHeimdall.map
          (lookVal (moveCounts hmText))).sum :=
  total_difference_eq (findAll sfText) (findAll hmText) hnd

theorem claim_C7_witness :
    ((findAll "e2e4: 20\nd2d4: 18\ng1f3: 5".data).map Prod.fst).Nodup ∧
    (totalOf (moveCounts "e2e4: 20\nd2d4: 20\na2a3: 4".data) : Int)
        - totalOf (moveCounts "e2e4: 20\nd2d4: 18\ng1f3: 5".data) =
      ((reportOf "e2e4: 20\nd2d4: 20\na2a3: 4".data
          "e2e4: 20\nd2d4: 18\ng1f3: 5".data).mistakes.map
        (fun m => lookVal (moveCounts "e2e4: 20\nd2d4: 20\na2a3: 4".data) m
          - lookVal (moveCounts "e2e4: 20\nd2d4: 18\ng1f3: 5".data) m)).sum
      + ((reportOf "e2e4: 20\nd2d4: 20\na2a3: 4".data
          "e2e4: 20\nd2d4: 18\ng1f3: 5".data).missingStockfish.map
          (lookVal (moveCounts "e2e4: 20\nd2d4: 20\na2a3: 4".data))).sum
      - ((reportOf "e2e4: 20\nd2d4: 20\na2a3: 4".data
          "e2e4: 20\nd2d4: 18\ng1f3: 5".data).missingHeimdall.map
          (lookVal (moveCounts "e2e4: 20\nd2d4: 18\ng1f3: 5".data))).sum :=
  ⟨by decide,
    claim_C7_amended "e2e4: 20\nd2d4: 20\na2a3: 4".data
      "e2e4: 20\nd2d4: 18\ng1f3: 5".data (by decide)⟩

end Heimdall
